import Mathlib

/-!
Verification of the OldTimeRadioWav firmware (`src/main.py`) against its
natural-language specification.

The Python source is shallowly embedded: machine bytes are `Nat` with explicit
`% 256` / `% 65536` masking, Python strings are lists of character codes
(`List Nat`), Python dicts are insertion-ordered association lists
(`List (Nat × Nat)`), Python floor division `//` on possibly-negative operands
is `Int.fdiv`, and fallible operations return `Option`.
-/

namespace OTR

/-! ## Constants from the configuration block of `main.py` -/

def MID : Nat := 32768
def MAX_ALBUM_NUM : Nat := 99
def EEPROM_SAVE_MIN_MS : Nat := 60000

/-! ## `checksum16` (main.py): 16-bit additive checksum -/

/-- `checksum16(data)`: `total = (total + b) & 0xFFFF` over all bytes. -/
def checksum16 (data : List Nat) : Nat :=
  data.foldl (fun total b => (total + b) % 65536) 0

theorem checksum16_foldl (l : List Nat) (a : Nat) :
    l.foldl (fun total b => (total + b) % 65536) (a % 65536) = (a + l.sum) % 65536 := by
  induction l generalizing a with
  | nil => simp
  | cons b rest ih =>
    simp only [List.foldl_cons, List.sum_cons]
    rw [Nat.mod_add_mod, ih (a + b)]
    ring_nf

theorem checksum16_eq_sum (l : List Nat) : checksum16 l = l.sum % 65536 := by
  have h := checksum16_foldl l 0
  simpa [checksum16] using h

/-! ## `df_send` (main.py): DFPlayer 10-byte frame encoder

`df_send(cmd, p1, p2)` builds
`[0x7E, 0xFF, 0x06, cmd, 0x00, p1 & 0xFF, p2 & 0xFF]`, appends the 16-bit
two's-complement checksum of bytes 1..6 (high byte first), then `0xEF`. -/

def dfFrame (cmd p1 p2 : Nat) : List Nat :=
  let pkt : List Nat := [0x7E, 0xFF, 0x06, cmd, 0x00, p1 % 256, p2 % 256]
  -- Python: csum = -sum(pkt[1:7]) & 0xFFFF
  let csum : Nat := (65536 - (0xFF + 0x06 + cmd + 0x00 + p1 % 256 + p2 % 256) % 65536) % 65536
  pkt ++ [(csum / 256) % 256, csum % 256, 0xEF]

/-! ## Association lists: the model of Python dicts

Python dicts are insertion-ordered; assignment replaces an existing key in
place and appends a new key at the end. -/

/-- `m.get(k)` on a Python dict modeled as an association list. -/
def ktGet : List (Nat × Nat) → Nat → Option Nat
  | [], _ => none
  | (a, c) :: rest, k => if a = k then some c else ktGet rest k

/-- `m.get(k, d)` with a default. -/
def ktGetD (m : List (Nat × Nat)) (k d : Nat) : Nat :=
  (ktGet m k).getD d

/-- `m[k] = v` on a Python dict: replace in place, or append a new key. -/
def ktSet : List (Nat × Nat) → Nat → Nat → List (Nat × Nat)
  | [], k, v => [(k, v)]
  | (a, c) :: rest, k, v =>
    if a = k then (k, v) :: rest else (a, c) :: ktSet rest k v

theorem ktGet_ktSet (m : List (Nat × Nat)) (k v k' : Nat) :
    ktGet (ktSet m k v) k' = if k = k' then some v else ktGet m k' := by
  induction m with
  | nil => by_cases h : k = k' <;> simp [ktSet, ktGet, h]
  | cons p rest ih =>
    obtain ⟨a, c⟩ := p
    by_cases ha : a = k
    · subst ha
      by_cases h : a = k' <;> simp [ktSet, ktGet, h]
    · by_cases h : a = k'
      · subst h
        have : ¬ k = a := fun hk => ha hk.symm
        simp [ktSet, ktGet, ha, this]
      · simp [ktSet, ktGet, ha, h, ih]

theorem ktSet_append_of_not_mem (m : List (Nat × Nat)) (k v : Nat)
    (h : ∀ p ∈ m, p.1 ≠ k) : ktSet m k v = m ++ [(k, v)] := by
  induction m with
  | nil => simp [ktSet]
  | cons p rest ih =>
    obtain ⟨a, c⟩ := p
    have ha : a ≠ k := h (a, c) (by simp)
    simp only [ktSet, if_neg ha, List.cons_append, List.cons.injEq, true_and]
    exact ih fun q hq => h q (by simp [hq])

/-! ## Schedule parsing and scanning (`parse_schedule_line`, `scan_schedule`,
`find_track_for_time` in main.py)

A schedule file line either fails to parse (`parse_schedule_line` returns
`None`: blank/comment/malformed/non-positive duration/folder or track < 1) or
yields `(folder, track, duration)` with `folder ≥ 1`, `track ≥ 1`,
`duration ≥ 1`.  The scanner consumes the list of per-line parse results. -/

structure SchedEntry where
  folder : Nat
  track : Nat
  duration : Nat
  deriving DecidableEq, Repr

/-- The accumulating loop body of `scan_schedule`: for each parsed entry,
skip folders above `MAX_ALBUM_NUM`; otherwise record the first entry whose
cumulative range contains the target, fold the entry into the per-folder
max-track map, and add its duration to the running total. -/
def scanScheduleAux (target : Nat) :
    List (Option SchedEntry) → Option (Nat × Nat) → List (Nat × Nat) → Nat →
    Option (Nat × Nat) × List (Nat × Nat) × Nat
  | [], found, counts, total => (found, counts, total)
  | none :: rest, found, counts, total => scanScheduleAux target rest found counts total
  | some e :: rest, found, counts, total =>
    if e.folder > MAX_ALBUM_NUM then
      scanScheduleAux target rest found counts total
    else
      let found' := if found = none ∧ target < total + e.duration
                    then some (e.folder, e.track) else found
      let counts' := if e.track > ktGetD counts e.folder 0
                     then ktSet counts e.folder e.track else counts
      scanScheduleAux target rest found' counts' (total + e.duration)

/-- `scan_schedule(target_sec)`: returns `(found, folder_counts, total)`. -/
def scanSchedule (entries : List (Option SchedEntry)) (target : Nat) :
    Option (Nat × Nat) × List (Nat × Nat) × Nat :=
  scanScheduleAux target entries none [] 0

/-- Total duration of the valid (parsed, in-range-folder) entries. -/
def validSum : List (Option SchedEntry) → Nat
  | [] => 0
  | none :: rest => validSum rest
  | some e :: rest =>
    if e.folder > MAX_ALBUM_NUM then validSum rest else e.duration + validSum rest

/-- `find_track_for_time(target_sec)`: abort on a zero-duration table, wrap
the target modulo the total and rescan once when no entry matched. -/
def findTrackForTime (entries : List (Option SchedEntry)) (target : Nat) :
    Option (Nat × Nat) × List (Nat × Nat) × Nat :=
  let r := scanSchedule entries target
  if r.2.2 ≤ 0 then (none, [], 0)
  else
    match r.1 with
    | some f => (some f, r.2.1, r.2.2)
    | none =>
      let wrapped := target % r.2.2
      ((scanSchedule entries wrapped).1, r.2.1, r.2.2)

theorem scanScheduleAux_total (target : Nat) (l : List (Option SchedEntry))
    (found : Option (Nat × Nat)) (counts : List (Nat × Nat)) (total : Nat) :
    (scanScheduleAux target l found counts total).2.2 = total + validSum l := by
  induction l generalizing found counts total with
  | nil => simp [scanScheduleAux, validSum]
  | cons o rest ih =>
    cases o with
    | none => simp [scanScheduleAux, validSum, ih]
    | some e =>
      by_cases h : e.folder > MAX_ALBUM_NUM
      · simp [scanScheduleAux, validSum, h, ih]
      · simp only [scanScheduleAux, validSum, if_neg h, ih]
        ring

theorem scanScheduleAux_found_none (target : Nat) (l : List (Option SchedEntry))
    (counts : List (Nat × Nat)) (total : Nat)
    (h : total + validSum l ≤ target) :
    (scanScheduleAux target l none counts total).1 = none := by
  induction l generalizing counts total with
  | nil => simp [scanScheduleAux]
  | cons o rest ih =>
    cases o with
    | none =>
      simp only [validSum] at h
      simpa [scanScheduleAux] using ih counts total h
    | some e =>
      by_cases hf : e.folder > MAX_ALBUM_NUM
      · simp only [validSum, if_pos hf] at h
        simpa [scanScheduleAux, hf] using ih counts total h
      · simp only [validSum, if_neg hf] at h
        have hlt : ¬ target < total + e.duration := by omega
        simp only [scanScheduleAux, if_neg hf, hlt, and_false, if_false]
        exact ih _ _ (by omega)

theorem scanSchedule_total (entries : List (Option SchedEntry)) (target : Nat) :
    (scanSchedule entries target).2.2 = validSum entries := by
  simpa using scanScheduleAux_total target entries none [] 0

theorem scanSchedule_found_none_of_total_le (entries : List (Option SchedEntry))
    (target : Nat) (h : validSum entries ≤ target) :
    (scanSchedule entries target).1 = none :=
  scanScheduleAux_found_none target entries [] 0 (by simpa using h)

/-- C3: For every schedule table whose valid entries have total duration
`T > 0` and every target second `S`, `find_track_for_time` returns the same
(album, track) match at `S` and at `S + T`. -/
theorem findTrackForTime_periodic (entries : List (Option SchedEntry)) (S : Nat)
    (hT : 0 < validSum entries) :
    (findTrackForTime entries S).1 = (findTrackForTime entries (S + validSum entries)).1 := by
  set T := validSum entries with hTdef
  have htot : ∀ t, (scanSchedule entries t).2.2 = T := fun t => scanSchedule_total entries t
  have hTne : ¬ (scanSchedule entries S).2.2 ≤ 0 := by rw [htot]; omega
  have hTne' : ¬ (scanSchedule entries (S + T)).2.2 ≤ 0 := by rw [htot]; omega
  have hnone : (scanSchedule entries (S + T)).1 = none :=
    scanSchedule_found_none_of_total_le entries (S + T) (by omega)
  have hmod : (S + T) % (scanSchedule entries (S + T)).2.2 = S % T := by
    rw [htot]; exact Nat.add_mod_right S T
  rw [findTrackForTime, findTrackForTime, if_neg hTne, if_neg hTne']
  rw [hnone]
  simp only [hmod]
  rcases hS : (scanSchedule entries S).1 with _ | f
  · have : S % (scanSchedule entries S).2.2 = S % T := by rw [htot]
    simp [this]
  · -- a match was found directly, so S lies inside the table: S % T = S
    have hSlt : S < T := by
      by_contra hge
      have := scanSchedule_found_none_of_total_le entries S (by omega)
      rw [hS] at this; exact Option.some_ne_none f this
    rw [Nat.mod_eq_of_lt hSlt, hS]

theorem findTrackForTime_periodic_witness :
    0 < validSum [some ⟨1, 1, 30⟩, some ⟨2, 5, 70⟩] ∧
      (findTrackForTime [some ⟨1, 1, 30⟩, some ⟨2, 5, 70⟩] 40).1 =
      (findTrackForTime [some ⟨1, 1, 30⟩, some ⟨2, 5, 70⟩] 140).1 :=
  ⟨by decide, findTrackForTime_periodic [some ⟨1, 1, 30⟩, some ⟨2, 5, 70⟩] 40 (by decide)⟩

/-! ## RTC time and `align_to_time` (main.py) -/

/-- A calendar datetime as returned by `rtc_read_datetime`:
`(year, month, day, hour, minute, second)`. -/
structure DateTime where
  year : Nat
  month : Nat
  day : Nat
  hour : Nat
  minute : Nat
  second : Nat
  deriving DecidableEq, Repr

/-- `iso_weekday(year, month, day)` (Sakamoto's method, Monday = 1). -/
def iso_weekday (year month day : Nat) : Nat :=
  let t : List Nat := [0, 3, 2, 5, 0, 3, 5, 1, 4, 6, 2, 4]
  let y := if month < 3 then year - 1 else year
  let dow := (y + y / 4 - y / 100 + y / 400 + t.getD (month - 1) 0 + day) % 7
  if dow = 0 then 7 else dow

/-- `seconds_into_week(dt)`. -/
def seconds_into_week (dt : DateTime) : Nat :=
  (iso_weekday dt.year dt.month dt.day - 1) * 86400 +
    dt.hour * 3600 + dt.minute * 60 + dt.second

/-- The mutable playback state touched by `align_to_time`:
`current_album`, `current_track` and `KNOWN_TRACKS`. -/
structure PlayState where
  album : Nat
  track : Nat
  known : List (Nat × Nat)
  deriving DecidableEq, Repr

/-- `align_to_time(reason)`: read the RTC (`none` models an unreadable or
absent clock), compute the week position, look up the schedule match; on any
failure return `False` leaving the state untouched, otherwise adopt the
matched (album, track) and, when the scanned per-folder map is nonempty,
replace `KNOWN_TRACKS` with it.  (The `save_state` persistence side effect is
outside this state.) -/
def align_to_time (rtcTime : Option DateTime) (entries : List (Option SchedEntry))
    (st : PlayState) : Bool × PlayState :=
  match rtcTime with
  | none => (false, st)
  | some dt =>
    let target := seconds_into_week dt
    let r := findTrackForTime entries target
    match r.1 with
    | none => (false, st)
    | some (folder, track) =>
      (true, { album := folder, track := track,
               known := if r.2.1 ≠ [] then r.2.1 else st.known })

/-- C8: if the schedule table's total valid duration is zero, alignment fails
atomically: `align_to_time` returns `False` and `current_album`,
`current_track` and `KNOWN_TRACKS` are exactly as before. -/
theorem align_to_time_zero_total (rtcTime : Option DateTime)
    (entries : List (Option SchedEntry)) (st : PlayState)
    (h : validSum entries = 0) :
    align_to_time rtcTime entries st = (false, st) := by
  cases rtcTime with
  | none => rfl
  | some dt =>
    have htot : (scanSchedule entries (seconds_into_week dt)).2.2 = 0 := by
      rw [scanSchedule_total, h]
    simp only [align_to_time, findTrackForTime, htot, Nat.le_refl, if_pos]

theorem align_to_time_zero_total_witness :
    validSum [some ⟨100, 1, 50⟩, none] = 0 ∧
      align_to_time (some ⟨2024, 1, 1, 12, 0, 0⟩) [some ⟨100, 1, 50⟩, none]
          ⟨4, 7, [(4, 9)]⟩ =
        (false, ⟨4, 7, [(4, 9)]⟩) :=
  ⟨by decide,
   align_to_time_zero_total (some ⟨2024, 1, 1, 12, 0, 0⟩) [some ⟨100, 1, 50⟩, none]
     ⟨4, 7, [(4, 9)]⟩ (by decide)⟩

/-- The dict returned by `eeprom_load_state` on a valid record. -/
structure EepromState where
  flags : Nat
  album : Nat
  track : Nat
  schedule_checksum : Nat
  schedule_mtime : Nat
  week_seconds : Nat
  deriving DecidableEq, Repr

/-! ## Track learning and the navigation state machine (main.py:
`note_track_learned`, `play_current`, and the button/auto-advance loop) -/

/-- `note_track_learned(album, track)`: raise `KNOWN_TRACKS[album]` to
`track` when `track` exceeds the current bound (`.get(album, 0)`). -/
def note_track_learned (known : List (Nat × Nat)) (album track : Nat) :
    List (Nat × Nat) :=
  if ktGetD known album 0 < track then ktSet known album track else known

/-- `play_current(label)`: issue STOP+PLAY for the current album/track; the
oracle `confirm` models whether BUSY goes low within the confirm window.  On
confirmation the track is learned.  Returns the confirmation flag, the new
state, and the (album, track) play attempt issued. -/
def play_current (confirm : Nat → Nat → Bool) (st : PlayState) :
    Bool × PlayState × List (Nat × Nat) :=
  if confirm st.album st.track then
    (true, { st with known := note_track_learned st.known st.album st.track },
     [(st.album, st.track)])
  else
    (false, st, [(st.album, st.track)])

/-- The shared next-track logic of the single-tap branch and the auto-advance
branch of the main loop: advance inside the known bound, otherwise probe the
unconfirmed track and wrap to track 1 if the probe is unconfirmed. -/
def advance_track (confirm : Nat → Nat → Bool) (st : PlayState) :
    PlayState × List (Nat × Nat) :=
  let max_known := ktGetD st.known st.album (max st.track 1)
  let candidate := st.track + 1
  if candidate ≤ max_known then
    let r := play_current confirm { st with track := candidate }
    (r.2.1, r.2.2)
  else
    let r := play_current confirm { st with track := candidate }
    if r.1 then (r.2.1, r.2.2)
    else
      let r2 := play_current confirm { r.2.1 with track := 1 }
      (r2.2.1, r.2.2 ++ r2.2.2)

/-- The double-tap branch: previous track, wrapping to the known bound. -/
def prev_track (confirm : Nat → Nat → Bool) (st : PlayState) :
    PlayState × List (Nat × Nat) :=
  let max_known := ktGetD st.known st.album (max st.track 1)
  let max_known := if max_known < 1 then 1 else max_known
  let track' := st.track - 1
  let track' := if track' < 1 then max_known else track'
  let r := play_current confirm { st with track := track' }
  (r.2.1, r.2.2)

/-- The triple-tap branch: restart the album at track 1. -/
def restart_album (confirm : Nat → Nat → Bool) (st : PlayState) :
    PlayState × List (Nat × Nat) :=
  let r := play_current confirm { st with track := 1 }
  (r.2.1, r.2.2)

/-- The long-press branch: next album (wrap 99 → 1) at track 1; if the play
is unconfirmed, forcibly reset to album 1 / track 1 and attempt once more. -/
def next_album (confirm : Nat → Nat → Bool) (st : PlayState) :
    PlayState × List (Nat × Nat) :=
  let candidate := if st.album + 1 > MAX_ALBUM_NUM then 1 else st.album + 1
  let st1 : PlayState := { st with album := candidate, track := 1 }
  let r := play_current confirm st1
  if r.1 then (r.2.1, r.2.2)
  else
    let r2 := play_current confirm { r.2.1 with album := 1, track := 1 }
    (r2.2.1, r.2.2 ++ r2.2.2)

/-- The navigation inputs dispatched by the main loop. -/
inductive NavInput
  | singleTap
  | doubleTap
  | tripleTap
  | longPress
  | autoAdvance
  deriving DecidableEq, Repr

/-- One navigation transition of the main loop (tap classification already
decided; auto-advance shares the single-tap next-track logic). -/
def navStep (input : NavInput) (confirm : Nat → Nat → Bool) (st : PlayState) :
    PlayState × List (Nat × Nat) :=
  match input with
  | .singleTap => advance_track confirm st
  | .doubleTap => prev_track confirm st
  | .tripleTap => restart_album confirm st
  | .longPress => next_album confirm st
  | .autoAdvance => advance_track confirm st

theorem ktGetD_note_track_learned (known : List (Nat × Nat)) (album track a : Nat) :
    ktGetD known a 0 ≤ ktGetD (note_track_learned known album track) a 0 := by
  by_cases h : ktGetD known album 0 < track
  · rw [note_track_learned, if_pos h]
    unfold ktGetD
    rw [ktGet_ktSet]
    by_cases he : album = a
    · subst he
      unfold ktGetD at h
      simpa using Nat.le_of_lt h
    · rw [if_neg he]
  · rw [note_track_learned, if_neg h]

theorem ktGetD_play_current (confirm : Nat → Nat → Bool) (st : PlayState) (a : Nat) :
    ktGetD st.known a 0 ≤ ktGetD (play_current confirm st).2.1.known a 0 := by
  rw [play_current]
  split <;> simp [ktGetD_note_track_learned]

theorem ktGetD_play_current_set_track (confirm : Nat → Nat → Bool) (st : PlayState)
    (tr a : Nat) :
    ktGetD st.known a 0 ≤
      ktGetD (play_current confirm { st with track := tr }).2.1.known a 0 :=
  ktGetD_play_current confirm { st with track := tr } a

theorem ktGetD_advance_track (confirm : Nat → Nat → Bool) (st : PlayState) (a : Nat) :
    ktGetD st.known a 0 ≤ ktGetD (advance_track confirm st).1.known a 0 := by
  have h1 := ktGetD_play_current confirm { st with track := st.track + 1 } a
  have h2 := ktGetD_play_current confirm
    { (play_current confirm { st with track := st.track + 1 }).2.1 with track := 1 } a
  simp only [advance_track]
  split_ifs
  all_goals simp_all
  all_goals omega

theorem ktGetD_prev_track (confirm : Nat → Nat → Bool) (st : PlayState) (a : Nat) :
    ktGetD st.known a 0 ≤ ktGetD (prev_track confirm st).1.known a 0 := by
  simp only [prev_track]
  exact ktGetD_play_current_set_track confirm st _ a

theorem ktGetD_restart_album (confirm : Nat → Nat → Bool) (st : PlayState) (a : Nat) :
    ktGetD st.known a 0 ≤ ktGetD (restart_album confirm st).1.known a 0 := by
  simp only [restart_album]
  exact ktGetD_play_current_set_track confirm st 1 a

theorem ktGetD_next_album (confirm : Nat → Nat → Bool) (st : PlayState) (a : Nat) :
    ktGetD st.known a 0 ≤ ktGetD (next_album confirm st).1.known a 0 := by
  have c := if st.album + 1 > MAX_ALBUM_NUM then 1 else st.album + 1
  have h1 := ktGetD_play_current confirm
    { st with album := if st.album + 1 > MAX_ALBUM_NUM then 1 else st.album + 1,
              track := 1 } a
  have h2 := ktGetD_play_current confirm
    { (play_current confirm
        { st with album := if st.album + 1 > MAX_ALBUM_NUM then 1 else st.album + 1,
                  track := 1 }).2.1 with album := 1, track := 1 } a
  simp only [next_album]
  split_ifs
  all_goals simp_all
  all_goals omega

/-- C2: the known-tracks bound for every album is monotonically non-decreasing:
each `note_track_learned` call only raises it (hence so does any sequence of
confirmed plays), and no navigation transition ever lowers or resets it. -/
theorem known_tracks_monotone :
    (∀ (known : List (Nat × Nat)) (plays : List (Nat × Nat)) (a : Nat),
      ktGetD known a 0 ≤
        ktGetD (plays.foldl (fun m p => note_track_learned m p.1 p.2) known) a 0) ∧
    (∀ (input : NavInput) (confirm : Nat → Nat → Bool) (st : PlayState) (a : Nat),
      ktGetD st.known a 0 ≤ ktGetD (navStep input confirm st).1.known a 0) := by
  constructor
  · intro known plays
    induction plays generalizing known with
    | nil => intro a; simp
    | cons p rest ih =>
      intro a
      calc ktGetD known a 0
          ≤ ktGetD (note_track_learned known p.1 p.2) a 0 :=
            ktGetD_note_track_learned known p.1 p.2 a
        _ ≤ _ := ih (note_track_learned known p.1 p.2) a
  · intro input confirm st a
    cases input
    case singleTap => exact ktGetD_advance_track confirm st a
    case autoAdvance => exact ktGetD_advance_track confirm st a
    case doubleTap => exact ktGetD_prev_track confirm st a
    case tripleTap => exact ktGetD_restart_album confirm st a
    case longPress => exact ktGetD_next_album confirm st a

/-- C4: single-tap probe semantics at `known_tracks = {3: 5}`, album 3,
track 5: the tap sets the track to 6 and issues a play of `(3, 6)` (probe);
if confirmed, `known_tracks[3]` becomes 6 (learn); if unconfirmed, the track
is reset to 1 and a play of `(3, 1)` is issued. -/
theorem single_tap_probe (confirm : Nat → Nat → Bool) :
    navStep .singleTap confirm ⟨3, 5, [(3, 5)]⟩ =
      if confirm 3 6 then (⟨3, 6, [(3, 6)]⟩, [(3, 6)])
      else (⟨3, 1, [(3, 5)]⟩, [(3, 6), (3, 1)]) := by
  cases h6 : confirm 3 6 <;> cases h1 : confirm 3 1 <;>
    simp [navStep, advance_track, play_current, note_track_learned, ktGetD, ktGet,
      ktSet, h6, h1]

/-! ## C5: the PLAY(folder 3, track 7) frame -/

/-- C5 counterexample: the frame for PLAY(folder 3, track 7) is *not* the
spec's `7E FF 06 0F 00 03 07 FF D2 EF`: the sum of bytes 1..6 is
`0xFF + 0x06 + 0x0F + 0x00 + 0x03 + 0x07 = 0x11E`, whose two's complement is
`0xFEE2`, not `0xFFD2`. -/
theorem dfFrame_play_3_7_not_spec_bytes :
    dfFrame 0x0F 3 7 ≠ [0x7E, 0xFF, 0x06, 0x0F, 0x00, 0x03, 0x07, 0xFF, 0xD2, 0xEF] := by
  decide

/-- C5 (amended): the frame for PLAY(folder 3, track 7) is exactly the 10
bytes `7E FF 06 0F 00 03 07 FE E2 EF`, where the two checksum bytes (high
byte first) are the two's-complement mod 65536 of the sum of bytes 1..6. -/
theorem dfFrame_play_3_7 :
    dfFrame 0x0F 3 7 = [0x7E, 0xFF, 0x06, 0x0F, 0x00, 0x03, 0x07, 0xFE, 0xE2, 0xEF] ∧
      (dfFrame 0x0F 3 7).getD 7 0 * 256 + (dfFrame 0x0F 3 7).getD 8 0 =
        (65536 - (0xFF + 0x06 + 0x0F + 0x00 + 0x03 + 0x07)) % 65536 := by
  decide

/-! ## The secondary (EEPROM) store record (main.py: `eeprom_save_state`,
`eeprom_load_state`)

`EEPROM_STRUCT_FMT = "<4sBBBBHIIH"` packs, little-endian and unpadded,
`{magic 4s, version B, flags B, album B, track B, schedule_checksum H,
schedule_mtime I, week_seconds I, crc H}` — 20 bytes.  `eeprom_save_state`
packs the first 18 bytes, then appends `checksum16` of them as the crc.
`eeprom_load_state` requires exactly 20 bytes, magic `b"OTR1"`, version 1 and
a matching crc; on any mismatch it reports "no data" (`None`). -/

/-- The first 18 bytes (everything before the crc) written by
`eeprom_save_state`: `ustruct.pack` of the masked fields. -/
def eepromBody (flags album track schedSum schedMtime weekSec : Nat) : List Nat :=
  let s := schedSum % 65536
  let m := schedMtime % 4294967296
  let w := weekSec % 4294967296
  [79, 84, 82, 49,                                      -- magic b"OTR1"
   1,                                                   -- EEPROM_VERSION
   flags % 256, album % 256, track % 256,
   s % 256, s / 256,                                    -- H, little-endian
   m % 256, m / 256 % 256, m / 65536 % 256, m / 16777216,
   w % 256, w / 256 % 256, w / 65536 % 256, w / 16777216]

/-- The full 20-byte record written by `eeprom_save_state`:
body ++ `checksum16(body)` packed `"<H"` (low byte, high byte). -/
def eepromPack (flags album track schedSum schedMtime weekSec : Nat) : List Nat :=
  let body := eepromBody flags album track schedSum schedMtime weekSec
  body ++ [checksum16 body % 256, checksum16 body / 256]

/-- `eeprom_load_state` applied to the raw bytes read back: require exactly
`EEPROM_STRUCT_LEN = 20` bytes, unpack the little-endian fields at their
fixed offsets, validate magic `b"OTR1"` (bytes 79 84 82 49), version 1, and
`checksum16(raw[:-2]) = crc`; any mismatch yields `none` ("no data"), never a
hard error. -/
def eepromLoadState (raw : List Nat) : Option EepromState :=
  if raw.length = 20 then
    if raw.getD 0 0 = 79 ∧ raw.getD 1 0 = 84 ∧ raw.getD 2 0 = 82 ∧
        raw.getD 3 0 = 49 ∧ raw.getD 4 0 = 1 then
      if checksum16 (raw.take 18) = raw.getD 18 0 + raw.getD 19 0 * 256 then
        some ⟨raw.getD 5 0, raw.getD 6 0, raw.getD 7 0,
              raw.getD 8 0 + raw.getD 9 0 * 256,
              raw.getD 10 0 + raw.getD 11 0 * 256 +
                raw.getD 12 0 * 65536 + raw.getD 13 0 * 16777216,
              raw.getD 14 0 + raw.getD 15 0 * 256 +
                raw.getD 16 0 * 65536 + raw.getD 17 0 * 16777216⟩
      else none
    else none
  else none

theorem getD_set_self (l : List Nat) (i b : Nat) (h : i < l.length) :
    (l.set i b).getD i 0 = b := by
  induction l generalizing i with
  | nil => simp at h
  | cons a rest ih =>
    cases i with
    | zero => rfl
    | succ j => exact ih j (by simpa using h)

theorem getD_set_ne (l : List Nat) (i j b : Nat) (h : i ≠ j) :
    (l.set i b).getD j 0 = l.getD j 0 := by
  induction l generalizing i j with
  | nil => simp
  | cons a rest ih =>
    cases i with
    | zero =>
      cases j with
      | zero => exact absurd rfl h
      | succ j' => rfl
    | succ i' =>
      cases j with
      | zero => rfl
      | succ j' => exact ih i' j' (by omega)

theorem sum_set_add (l : List Nat) (i b : Nat) (h : i < l.length) :
    (l.set i b).sum + l.getD i 0 = l.sum + b := by
  induction l generalizing i with
  | nil => simp at h
  | cons a rest ih =>
    cases i with
    | zero => simp [List.set, List.getD_cons_zero]; omega
    | succ j =>
      have := ih j (by simpa using h)
      simp only [List.set, List.sum_cons, List.getD_cons_succ]
      omega

theorem eepromBody_getD_lt (flags album track ss mt ws : Nat) (i : Nat) (hi : i < 18) :
    (eepromBody flags album track ss mt ws).getD i 0 < 256 := by
  interval_cases i <;>
    simp only [eepromBody, List.getD_cons_zero, List.getD_cons_succ] <;>
    omega

theorem eepromLoadState_none_of_magic (raw : List Nat) (hlen : raw.length = 20)
    (h : ¬ (raw.getD 0 0 = 79 ∧ raw.getD 1 0 = 84 ∧ raw.getD 2 0 = 82 ∧
            raw.getD 3 0 = 49 ∧ raw.getD 4 0 = 1)) :
    eepromLoadState raw = none := by
  rw [eepromLoadState, if_pos hlen, if_neg h]

theorem eepromLoadState_none_of_crc (raw : List Nat) (hlen : raw.length = 20)
    (h : checksum16 (raw.take 18) ≠ raw.getD 18 0 + raw.getD 19 0 * 256) :
    eepromLoadState raw = none := by
  rw [eepromLoadState, if_pos hlen]
  by_cases hmg : raw.getD 0 0 = 79 ∧ raw.getD 1 0 = 84 ∧ raw.getD 2 0 = 82 ∧
      raw.getD 3 0 = 49 ∧ raw.getD 4 0 = 1
  · rw [if_pos hmg, if_neg h]
  · rw [if_neg hmg]

theorem eepromPack_length (flags album track ss mt ws : Nat) :
    (eepromPack flags album track ss mt ws).length = 20 := rfl

theorem eepromBody_length (flags album track ss mt ws : Nat) :
    (eepromBody flags album track ss mt ws).length = 18 := rfl

theorem eepromPack_take (flags album track ss mt ws : Nat) :
    (eepromPack flags album track ss mt ws).take 18 =
      eepromBody flags album track ss mt ws := rfl

theorem eepromPack_getD18 (flags album track ss mt ws : Nat) :
    (eepromPack flags album track ss mt ws).getD 18 0 =
      checksum16 (eepromBody flags album track ss mt ws) % 256 := rfl

theorem eepromPack_getD19 (flags album track ss mt ws : Nat) :
    (eepromPack flags album track ss mt ws).getD 19 0 =
      checksum16 (eepromBody flags album track ss mt ws) / 256 := rfl

theorem eepromPack_magic (flags album track ss mt ws : Nat) :
    (eepromPack flags album track ss mt ws).getD 0 0 = 79 ∧
      (eepromPack flags album track ss mt ws).getD 1 0 = 84 ∧
      (eepromPack flags album track ss mt ws).getD 2 0 = 82 ∧
      (eepromPack flags album track ss mt ws).getD 3 0 = 49 ∧
      (eepromPack flags album track ss mt ws).getD 4 0 = 1 :=
  ⟨rfl, rfl, rfl, rfl, rfl⟩

theorem eepromPack_getD_body (flags album track ss mt ws i : Nat) (hi : i < 18) :
    (eepromPack flags album track ss mt ws).getD i 0 =
      (eepromBody flags album track ss mt ws).getD i 0 :=
  List.getD_append _ _ _ _ (by rw [eepromBody_length]; omega)

theorem eepromLoadState_pack (flags album track ss mt ws : Nat)
    (hf : flags < 256) (ha : album < 256) (ht : track < 256)
    (hs : ss < 65536) (hm : mt < 4294967296) (hw : ws < 4294967296) :
    eepromLoadState (eepromPack flags album track ss mt ws) =
      some ⟨flags, album, track, ss, mt, ws⟩ := by
  have hcs : checksum16 (eepromBody flags album track ss mt ws) < 65536 := by
    rw [checksum16_eq_sum]; exact Nat.mod_lt _ (by omega)
  rw [eepromLoadState, if_pos (eepromPack_length flags album track ss mt ws),
    if_pos (eepromPack_magic flags album track ss mt ws), if_pos]
  · show some (⟨flags % 256, album % 256, track % 256,
        ss % 65536 % 256 + ss % 65536 / 256 * 256,
        mt % 4294967296 % 256 + mt % 4294967296 / 256 % 256 * 256 +
          mt % 4294967296 / 65536 % 256 * 65536 +
          mt % 4294967296 / 16777216 * 16777216,
        ws % 4294967296 % 256 + ws % 4294967296 / 256 % 256 * 256 +
          ws % 4294967296 / 65536 % 256 * 65536 +
          ws % 4294967296 / 16777216 * 16777216⟩ : EepromState) =
      some ⟨flags, album, track, ss, mt, ws⟩
    simp only [Option.some.injEq, EepromState.mk.injEq]
    refine ⟨?_, ?_, ?_, ?_, ?_, ?_⟩ <;> omega
  · show checksum16 (eepromBody flags album track ss mt ws) =
      checksum16 (eepromBody flags album track ss mt ws) % 256 +
        checksum16 (eepromBody flags album track ss mt ws) / 256 * 256
    omega

theorem eepromLoadState_pack_mod (flags album track ss mt ws : Nat) :
    eepromLoadState (eepromPack flags album track ss mt ws) =
      some ⟨flags % 256, album % 256, track % 256, ss % 65536,
            mt % 4294967296, ws % 4294967296⟩ := by
  have hcs : checksum16 (eepromBody flags album track ss mt ws) < 65536 := by
    rw [checksum16_eq_sum]; exact Nat.mod_lt _ (by omega)
  rw [eepromLoadState, if_pos (eepromPack_length flags album track ss mt ws),
    if_pos (eepromPack_magic flags album track ss mt ws), if_pos]
  · show some (⟨flags % 256, album % 256, track % 256,
        ss % 65536 % 256 + ss % 65536 / 256 * 256,
        mt % 4294967296 % 256 + mt % 4294967296 / 256 % 256 * 256 +
          mt % 4294967296 / 65536 % 256 * 65536 +
          mt % 4294967296 / 16777216 * 16777216,
        ws % 4294967296 % 256 + ws % 4294967296 / 256 % 256 * 256 +
          ws % 4294967296 / 65536 % 256 * 65536 +
          ws % 4294967296 / 16777216 * 16777216⟩ : EepromState) =
      some ⟨flags % 256, album % 256, track % 256, ss % 65536,
            mt % 4294967296, ws % 4294967296⟩
    simp only [Option.some.injEq, EepromState.mk.injEq]
    refine ⟨trivial, trivial, trivial, ?_, ?_, ?_⟩ <;> omega
  · show checksum16 (eepromBody flags album track ss mt ws) =
      checksum16 (eepromBody flags album track ss mt ws) % 256 +
        checksum16 (eepromBody flags album track ss mt ws) / 256 * 256
    omega

theorem eepromLoadState_pack_set (flags album track ss mt ws i b : Nat)
    (hi : i < 18) (hb : b < 256)
    (hne : b ≠ (eepromPack flags album track ss mt ws).getD i 0) :
    eepromLoadState ((eepromPack flags album track ss mt ws).set i b) = none := by
  have hlen : ((eepromPack flags album track ss mt ws).set i b).length = 20 := by
    rw [List.length_set, eepromPack_length]
  have hneb : b ≠ (eepromBody flags album track ss mt ws).getD i 0 := by
    rwa [eepromPack_getD_body flags album track ss mt ws i hi] at hne
  by_cases hi5 : i < 5
  · apply eepromLoadState_none_of_magic _ hlen
    have hset : ((eepromPack flags album track ss mt ws).set i b).getD i 0 = b :=
      getD_set_self _ _ _ (by rw [eepromPack_length]; omega)
    intro hc
    interval_cases i
    · exact hneb (hset.symm.trans hc.1)
    · exact hneb (hset.symm.trans hc.2.1)
    · exact hneb (hset.symm.trans hc.2.2.1)
    · exact hneb (hset.symm.trans hc.2.2.2.1)
    · exact hneb (hset.symm.trans hc.2.2.2.2)
  · apply eepromLoadState_none_of_crc _ hlen
    have htake : ((eepromPack flags album track ss mt ws).set i b).take 18 =
        (eepromBody flags album track ss mt ws).set i b := by
      rw [List.set_take, eepromPack_take]
    have h18 : ((eepromPack flags album track ss mt ws).set i b).getD 18 0 =
        checksum16 (eepromBody flags album track ss mt ws) % 256 := by
      rw [getD_set_ne _ _ _ _ (by omega), eepromPack_getD18]
    have h19 : ((eepromPack flags album track ss mt ws).set i b).getD 19 0 =
        checksum16 (eepromBody flags album track ss mt ws) / 256 := by
      rw [getD_set_ne _ _ _ _ (by omega), eepromPack_getD19]
    rw [htake, h18, h19, checksum16_eq_sum, checksum16_eq_sum]
    have hsum := sum_set_add (eepromBody flags album track ss mt ws) i b
      (by rw [eepromBody_length]; omega)
    have hlt := eepromBody_getD_lt flags album track ss mt ws i hi
    omega

/-- C6: a secondary-store record produced by `eeprom_save_state`'s packing
validates on unmodified read-back (`eeprom_load_state` returns its fields),
and every single-byte alteration of any of the 18 non-crc bytes makes
`eeprom_load_state` report the record as absent (`none`), never an error. -/
theorem eeprom_record_roundtrip_and_flip (flags album track ss mt ws : Nat)
    (hf : flags < 256) (ha : album < 256) (ht : track < 256)
    (hs : ss < 65536) (hm : mt < 4294967296) (hw : ws < 4294967296) :
    eepromLoadState (eepromPack flags album track ss mt ws) =
        some ⟨flags, album, track, ss, mt, ws⟩ ∧
      ∀ i b, i < 18 → b < 256 →
        b ≠ (eepromPack flags album track ss mt ws).getD i 0 →
        eepromLoadState ((eepromPack flags album track ss mt ws).set i b) = none :=
  ⟨eepromLoadState_pack flags album track ss mt ws hf ha ht hs hm hw,
   fun i b hi hb hne => eepromLoadState_pack_set flags album track ss mt ws i b hi hb hne⟩

theorem eeprom_record_roundtrip_and_flip_witness :
    (5 < 256 ∧ 7 < 256 ∧ 9 < 256 ∧ 1000 < 65536 ∧ 123456 < 4294967296 ∧
        54321 < 4294967296 ∧ 6 < 18 ∧ 0 < 256 ∧
        (0 : Nat) ≠ (eepromPack 5 7 9 1000 123456 54321).getD 6 0) ∧
      eepromLoadState (eepromPack 5 7 9 1000 123456 54321) =
          some ⟨5, 7, 9, 1000, 123456, 54321⟩ ∧
        eepromLoadState ((eepromPack 5 7 9 1000 123456 54321).set 6 0) = none :=
  ⟨by decide,
   (eeprom_record_roundtrip_and_flip 5 7 9 1000 123456 54321 (by decide) (by decide)
      (by decide) (by decide) (by decide) (by decide)).1,
   (eeprom_record_roundtrip_and_flip 5 7 9 1000 123456 54321 (by decide) (by decide)
      (by decide) (by decide) (by decide) (by decide)).2 6 0 (by decide) (by decide)
      (by decide)⟩

/-! ## `eeprom_save_state` rate limiting (main.py)

`eeprom_save_state` returns `False` without touching the EEPROM when the I2C
bus or EEPROM is absent, or when `last_eeprom_save_ms` is truthy (nonzero)
and less than `EEPROM_SAVE_MIN_MS` ticks old.  Otherwise it packs the record
and writes it; only a successful write updates `last_eeprom_save_ms`. -/

/-- MicroPython `time.ticks_diff(a, b)` with the standard `TICKS_PERIOD`
of `2^30`: the signed wrap-around difference. -/
def ticks_diff (a b : Nat) : Int :=
  ((a : Int) - (b : Int) + 536870912) % 1073741824 - 536870912

/-- The environment read by `eeprom_save_state`: hardware presence, write
success, and the schedule/RTC values it samples. -/
structure EepromEnv where
  present : Bool
  writeOk : Bool
  schedSum : Nat
  schedMtime : Nat
  rtcTime : Option DateTime
  deriving DecidableEq, Repr

/-- The persistent side of the secondary store: the rate-limiter timestamp
`last_eeprom_save_ms` and the bytes stored at `EEPROM_STATE_ADDR`. -/
structure EepromStore where
  lastSaveMs : Nat
  stored : List Nat
  deriving DecidableEq, Repr

/-- `eeprom_save_state(flags, album, track)` at tick `now`. -/
def eeprom_save_state (env : EepromEnv) (now flags album track : Nat)
    (st : EepromStore) : Bool × EepromStore :=
  if env.present = false then (false, st)
  else if st.lastSaveMs ≠ 0 ∧ ticks_diff now st.lastSaveMs < (EEPROM_SAVE_MIN_MS : Int)
  then (false, st)
  else
    let week_sec := match env.rtcTime with
      | some dt => seconds_into_week dt
      | none => 0
    let payload := eepromPack flags album track env.schedSum env.schedMtime week_sec
    if env.writeOk then (true, ⟨now, payload⟩) else (false, st)

theorem eeprom_save_success_last (env : EepromEnv) (now flags album track : Nat)
    (st : EepromStore)
    (h : (eeprom_save_state env now flags album track st).1 = true) :
    (eeprom_save_state env now flags album track st).2.lastSaveMs = now := by
  rw [eeprom_save_state] at h ⊢
  split_ifs at h ⊢
  all_goals simp_all

/-- C7 counterexample: the rate limiter treats `last_eeprom_save_ms = 0` as
"never saved", so a save that succeeds at tick 0 does not arm it: a second
save request 100 ms later (well under `EEPROM_SAVE_MIN_MS`) performs another
EEPROM write and changes the stored bytes. -/
theorem eeprom_save_tick0_not_rate_limited :
    (eeprom_save_state ⟨true, true, 0, 0, none⟩ 0 0 1 1 ⟨0, []⟩).1 = true ∧
      ticks_diff 100 0 < (EEPROM_SAVE_MIN_MS : Int) ∧
      (eeprom_save_state ⟨true, true, 0, 0, none⟩ 100 0 1 2
          (eeprom_save_state ⟨true, true, 0, 0, none⟩ 0 0 1 1 ⟨0, []⟩).2).1 = true ∧
      (eeprom_save_state ⟨true, true, 0, 0, none⟩ 100 0 1 2
          (eeprom_save_state ⟨true, true, 0, 0, none⟩ 0 0 1 1 ⟨0, []⟩).2).2.stored ≠
        (eeprom_save_state ⟨true, true, 0, 0, none⟩ 0 0 1 1 ⟨0, []⟩).2.stored := by
  decide

/-- C7 (amended): once a save request has actually performed a write at a
*nonzero* tick `t1`, any save request issued less than `EEPROM_SAVE_MIN_MS`
after it is a silent no-op: it returns `False`, performs no EEPROM write and
leaves the stored bytes and the limiter timestamp exactly unchanged. -/
theorem eeprom_save_rate_limited (env env2 : EepromEnv)
    (t1 flags1 album1 track1 t2 flags2 album2 track2 : Nat) (st : EepromStore)
    (h1 : (eeprom_save_state env t1 flags1 album1 track1 st).1 = true)
    (ht1 : t1 ≠ 0)
    (hd : ticks_diff t2 t1 < (EEPROM_SAVE_MIN_MS : Int)) :
    eeprom_save_state env2 t2 flags2 album2 track2
        (eeprom_save_state env t1 flags1 album1 track1 st).2 =
      (false, (eeprom_save_state env t1 flags1 album1 track1 st).2) := by
  have hlast := eeprom_save_success_last env t1 flags1 album1 track1 st h1
  rw [eeprom_save_state]
  by_cases hp2 : env2.present = false
  · rw [if_pos hp2]
  · rw [if_neg hp2, if_pos ⟨by rw [hlast]; exact ht1, by rw [hlast]; exact hd⟩]

theorem eeprom_save_rate_limited_witness :
    ((eeprom_save_state ⟨true, true, 0, 0, none⟩ 50 0 1 1 ⟨0, []⟩).1 = true ∧
        (50 : Nat) ≠ 0 ∧ ticks_diff 4000 50 < (EEPROM_SAVE_MIN_MS : Int)) ∧
      eeprom_save_state ⟨true, true, 0, 0, none⟩ 4000 0 1 2
          (eeprom_save_state ⟨true, true, 0, 0, none⟩ 50 0 1 1 ⟨0, []⟩).2 =
        (false, (eeprom_save_state ⟨true, true, 0, 0, none⟩ 50 0 1 1 ⟨0, []⟩).2) :=
  ⟨by decide,
   eeprom_save_rate_limited ⟨true, true, 0, 0, none⟩ ⟨true, true, 0, 0, none⟩
     50 0 1 1 4000 0 1 2 ⟨0, []⟩ (by decide) (by decide) (by decide)⟩

/-! ## Boot reconciliation (main.py, module level after "MAIN BOOT LOGIC")

```
loaded_file = load_state()
if rtc_init():
    maybe_set_rtc(...)   # on success: eeprom_flags |= RTC_SET; eeprom_save_state(flags, album, track)
    align_to_time("boot")   # on success: save_state -> eeprom_save_state(flags, aligned album/track)
saved = eeprom_load_state()
if saved:
    eeprom_flags = int(saved.get("flags", 0)) & 0xFF
    if not loaded_file:
        current_album = max(1, int(saved.get("album", 1)))
        current_track = max(1, int(saved.get("track", 1)))
```

The line-944 `eeprom_load_state()` reads the store *after* any boot-time
writes: `maybe_set_rtc`'s save (pre-alignment position, arming the rate
limiter) and/or `align_to_time`'s save (aligned position; suppressed by the
limiter if the bootstrap save preceded it within `EEPROM_SAVE_MIN_MS`).
`last_eeprom_save_ms` is a global initialised to 0, so the limiter is
unarmed when boot begins. -/

/-- The boot environment: `primary` is the `load_state` parse result
(`none` = missing/unparseable `album_state.txt`), `rtcOk` the outcome of
`rtc_init`, `rtcTime` the RTC reading (stable across the boot), `sched` the
parsed schedule lines, `eepromPresent` whether I2C bus and EEPROM were
detected, `schedSum`/`schedMtime` the values `eeprom_save_state` samples,
`stored0` the pre-boot bytes at `EEPROM_STATE_ADDR`, `bootstrapSet` whether
`maybe_set_rtc` wrote the RTC (and therefore set the flag bit and called
`eeprom_save_state`), and `t0`/`t1` the `ticks_ms` values at the bootstrap
save and at alignment's save. -/
structure BootEnv where
  primary : Option PlayState
  rtcOk : Bool
  rtcTime : Option DateTime
  sched : List (Option SchedEntry)
  eepromPresent : Bool
  schedSum : Nat
  schedMtime : Nat
  stored0 : List Nat
  bootstrapSet : Bool
  t0 : Nat
  t1 : Nat
  deriving DecidableEq, Repr

/-- `load_state()`: the parsed primary state, or the defaults
(album 1, track 1, empty map). -/
def bootLoadedState (env : BootEnv) : PlayState :=
  match env.primary with
  | some s => s
  | none => ⟨1, 1, []⟩

/-- The `EepromEnv` seen by the boot-time `eeprom_save_state` calls.  I2C
write exceptions are hardware faults outside this model, so `writeOk` is
true; presence gates everything as in the code. -/
def bootEepromEnv (env : BootEnv) : EepromEnv :=
  ⟨env.eepromPresent, true, env.schedSum, env.schedMtime, env.rtcTime⟩

/-- The boot sequence of main.py up to `start_sequence_synced`, threading
the EEPROM store through the boot-time saves: returns the `PlayState`
entering the start sequence together with `eeprom_flags`.
`eeprom_flags` starts 0; `maybe_set_rtc` ORs in `EEPROM_FLAG_RTC_SET = 1`. -/
def bootReconcile (env : BootEnv) : PlayState × Nat :=
  let st0 := bootLoadedState env
  let store0 : EepromStore := ⟨0, env.stored0⟩
  let flags1 : Nat := if env.rtcOk ∧ env.bootstrapSet then 1 else 0
  let store1 : EepromStore :=
    if env.rtcOk ∧ env.bootstrapSet then
      (eeprom_save_state (bootEepromEnv env) env.t0 1 st0.album st0.track store0).2
    else store0
  let ar := align_to_time env.rtcTime env.sched st0
  let st1 := if env.rtcOk then ar.2 else st0
  let store2 : EepromStore :=
    if env.rtcOk ∧ ar.1 then
      (eeprom_save_state (bootEepromEnv env) env.t1 flags1 ar.2.album ar.2.track store1).2
    else store1
  match (if env.eepromPresent then eepromLoadState store2.stored else none) with
  | none => (st1, flags1)
  | some r =>
    (if env.primary.isSome then st1
     else { st1 with album := max 1 r.album, track := max 1 r.track },
     r.flags % 256)

theorem scanScheduleAux_found_cases (target : Nat) (l : List (Option SchedEntry))
    (f : Option (Nat × Nat)) (c : List (Nat × Nat)) (a : Nat) (pr : Nat × Nat)
    (h : (scanScheduleAux target l f c a).1 = some pr) :
    f = some pr ∨ ∃ e : SchedEntry, some e ∈ l ∧ e.folder ≤ MAX_ALBUM_NUM ∧
      pr = (e.folder, e.track) := by
  induction l generalizing f c a with
  | nil => exact Or.inl h
  | cons o rest ih =>
    cases o with
    | none =>
      rcases ih f c a (by simpa [scanScheduleAux] using h) with h1 | ⟨e, he, hle, hp⟩
      · exact Or.inl h1
      · exact Or.inr ⟨e, by simp [he], hle, hp⟩
    | some e =>
      by_cases hfold : e.folder > MAX_ALBUM_NUM
      · have h' : (scanScheduleAux target rest f c a).1 = some pr := by
          simpa [scanScheduleAux, hfold] using h
        rcases ih f c a h' with h1 | ⟨e', he', hle', hp'⟩
        · exact Or.inl h1
        · exact Or.inr ⟨e', by simp [he'], hle', hp'⟩
      · simp only [scanScheduleAux, if_neg hfold] at h
        rcases ih _ _ _ h with h1 | ⟨e', he', hle', hp'⟩
        · by_cases hcond : f = none ∧ target < a + e.duration
          · rw [if_pos hcond] at h1
            injection h1 with h1
            exact Or.inr ⟨e, by simp, by omega, h1.symm⟩
          · rw [if_neg hcond] at h1
            exact Or.inl h1
        · exact Or.inr ⟨e', by simp [he'], hle', hp'⟩

theorem findTrackForTime_found_mem (entries : List (Option SchedEntry)) (target : Nat)
    (pr : Nat × Nat) (h : (findTrackForTime entries target).1 = some pr) :
    ∃ e : SchedEntry, some e ∈ entries ∧ e.folder ≤ MAX_ALBUM_NUM ∧
      pr = (e.folder, e.track) := by
  simp only [findTrackForTime] at h
  by_cases h0 : (scanSchedule entries target).2.2 ≤ 0
  · rw [if_pos h0] at h
    exact absurd h (by simp)
  · rw [if_neg h0] at h
    rcases hs : (scanSchedule entries target).1 with _ | f
    · rw [hs] at h
      simp only at h
      rcases scanScheduleAux_found_cases _ entries none [] 0 pr h with h1 | hok
      · exact absurd h1 (by simp)
      · exact hok
    · rw [hs] at h
      simp only [Option.some.injEq] at h
      rcases scanScheduleAux_found_cases target entries none [] 0 f hs with h1 | ⟨e, he, hle, hp⟩
      · exact absurd h1 (by simp)
      · exact ⟨e, he, hle, by rw [← h, hp]⟩

theorem align_to_time_success (rt : Option DateTime) (entries : List (Option SchedEntry))
    (st : PlayState) (h : (align_to_time rt entries st).1 = true) :
    ∃ dt f t, rt = some dt ∧
      (findTrackForTime entries (seconds_into_week dt)).1 = some (f, t) ∧
      (align_to_time rt entries st).2.album = f ∧
      (align_to_time rt entries st).2.track = t := by
  cases rt with
  | none => simp [align_to_time] at h
  | some dt =>
    rcases hf : (findTrackForTime entries (seconds_into_week dt)).1 with _ | ⟨f, t⟩
    · simp [align_to_time, hf] at h
    · exact ⟨dt, f, t, rfl, hf, by simp [align_to_time, hf], by simp [align_to_time, hf]⟩

theorem eeprom_save_state_absent (eenv : EepromEnv) (now flags album track : Nat)
    (st : EepromStore) (hp : eenv.present = false) :
    eeprom_save_state eenv now flags album track st = (false, st) := by
  rw [eeprom_save_state, if_pos hp]

theorem eeprom_save_state_goes_through (eenv : EepromEnv) (now flags album track : Nat)
    (st : EepromStore) (hp : eenv.present = true) (hw : eenv.writeOk = true)
    (hlim : ¬ (st.lastSaveMs ≠ 0 ∧
      ticks_diff now st.lastSaveMs < (EEPROM_SAVE_MIN_MS : Int))) :
    eeprom_save_state eenv now flags album track st =
      (true, ⟨now, eepromPack flags album track eenv.schedSum eenv.schedMtime
        (match eenv.rtcTime with
         | some dt => seconds_into_week dt
         | none => 0)⟩) := by
  rw [eeprom_save_state, if_neg (by simp [hp]), if_neg hlim]
  simp [hw]

theorem eeprom_save_state_limited (eenv : EepromEnv) (now flags album track : Nat)
    (st : EepromStore) (h0 : st.lastSaveMs ≠ 0)
    (hd : ticks_diff now st.lastSaveMs < (EEPROM_SAVE_MIN_MS : Int)) :
    eeprom_save_state eenv now flags album track st = (false, st) := by
  rw [eeprom_save_state]
  by_cases hp : eenv.present = false
  · rw [if_pos hp]
  · rw [if_neg hp, if_pos ⟨h0, hd⟩]

/-- C1 counterexample: primary store absent, EEPROM present, time source
bootstrapped this boot (`maybe_set_rtc` saved the pre-alignment defaults at
tick 1000, arming the rate limiter), schedule aligning to `(album 2,
track 3)`.  Alignment succeeds, but its own EEPROM save at tick 1200 is
rate-limited, so line 944 reads back the bootstrap record `(1, 1)` and the
fallback adopts it: the position entering the start sequence is `(1, 1)`,
not the aligned `(2, 3)`. -/
theorem bootReconcile_bootstrap_save_masks_alignment :
    (align_to_time (some ⟨2024, 1, 1, 0, 0, 0⟩) [some ⟨2, 3, 100⟩] ⟨1, 1, []⟩).1 = true ∧
      (align_to_time (some ⟨2024, 1, 1, 0, 0, 0⟩) [some ⟨2, 3, 100⟩] ⟨1, 1, []⟩).2.album = 2 ∧
      (align_to_time (some ⟨2024, 1, 1, 0, 0, 0⟩) [some ⟨2, 3, 100⟩] ⟨1, 1, []⟩).2.track = 3 ∧
      (bootReconcile ⟨none, true, some ⟨2024, 1, 1, 0, 0, 0⟩, [some ⟨2, 3, 100⟩],
          true, 0, 0, [], true, 1000, 1200⟩).1.album = 1 ∧
      (bootReconcile ⟨none, true, some ⟨2024, 1, 1, 0, 0, 0⟩, [some ⟨2, 3, 100⟩],
          true, 0, 0, [], true, 1000, 1200⟩).1.track = 1 := by
  decide

/-- C1 (amended): boot reconciliation follows the spec's order (primary
first, secondary album/track only as fallback, the read-back record's flag
bits adopted), and when the time source is valid and schedule alignment
succeeds, the position entering the start sequence is the aligned one for
every combination of primary-present/absent and secondary-present/absent —
*except* when the primary is absent, the secondary is present, and
`maybe_set_rtc` saved to the EEPROM earlier in the same boot at a nonzero
tick less than `EEPROM_SAVE_MIN_MS` before alignment's save: that save armed
the rate limiter, alignment's own save is suppressed, and the fallback
re-adopts the pre-alignment defaults `(1, 1)` from the bootstrap record.
(Schedule entries are parser-valid: folder, track ≥ 1 and track a byte.) -/
theorem bootReconcile_align_override (env : BootEnv)
    (hvalid : ∀ e : SchedEntry, some e ∈ env.sched →
      1 ≤ e.folder ∧ 1 ≤ e.track ∧ e.track ≤ 255)
    (hrtc : env.rtcOk = true)
    (halign : (align_to_time env.rtcTime env.sched (bootLoadedState env)).1 = true) :
    ((bootReconcile env).1.album, (bootReconcile env).1.track) =
        (if env.primary = none ∧ env.eepromPresent = true ∧ env.bootstrapSet = true ∧
            env.t0 ≠ 0 ∧ ticks_diff env.t1 env.t0 < (EEPROM_SAVE_MIN_MS : Int)
         then (1, 1)
         else ((align_to_time env.rtcTime env.sched (bootLoadedState env)).2.album,
               (align_to_time env.rtcTime env.sched (bootLoadedState env)).2.track)) ∧
      (bootReconcile env).2 = (if env.bootstrapSet = true then 1 else 0) := by
  obtain ⟨prim, rtcOk, rtcTime, sched, epres, ssum, smtime, bytes, bset, t0, t1⟩ := env
  subst hrtc
  obtain ⟨dt, f, t, hrt, hfind, halb, haltr⟩ :=
    align_to_time_success rtcTime sched _ halign
  subst hrt
  obtain ⟨e, he, hle, hpr⟩ := findTrackForTime_found_mem sched _ _ hfind
  obtain ⟨hef, het1, het2⟩ := hvalid e he
  have hle' : e.folder ≤ 99 := hle
  have hfe : f = e.folder := congrArg Prod.fst hpr
  have hte : t = e.track := congrArg Prod.snd hpr
  have hmodf : f % 256 = f := Nat.mod_eq_of_lt (by omega)
  have hmodt : t % 256 = t := Nat.mod_eq_of_lt (by omega)
  have hmaxf : max 1 f = f := max_eq_right (by omega)
  have hmaxt : max 1 t = t := max_eq_right (by omega)
  cases bset with
  | false =>
    cases epres with
    | false =>
      simp [bootReconcile, halign]
    | true =>
      cases prim with
      | none =>
        simp only [bootLoadedState] at halign halb haltr
        have hsave1 := eeprom_save_state_goes_through
          ⟨true, true, ssum, smtime, some dt⟩ t1 0 f t ⟨0, bytes⟩ rfl rfl (by simp)
        simp [bootReconcile, bootLoadedState, bootEepromEnv, halign, halb, haltr, hsave1,
          eepromLoadState_pack_mod, hmodf, hmodt, hmaxf, hmaxt]
      | some s =>
        simp only [bootLoadedState] at halign halb haltr
        have hsave1 := eeprom_save_state_goes_through
          ⟨true, true, ssum, smtime, some dt⟩ t1 0 f t ⟨0, bytes⟩ rfl rfl (by simp)
        simp [bootReconcile, bootLoadedState, bootEepromEnv, halign, halb, haltr, hsave1,
          eepromLoadState_pack_mod]
  | true =>
    cases epres with
    | false =>
      simp [bootReconcile, halign]
    | true =>
      cases prim with
      | none =>
        simp only [bootLoadedState] at halign halb haltr
        have hsave0 := eeprom_save_state_goes_through
          ⟨true, true, ssum, smtime, some dt⟩ t0 1 1 1 ⟨0, bytes⟩ rfl rfl (by simp)
        by_cases hlim : t0 ≠ 0 ∧ ticks_diff t1 t0 < (EEPROM_SAVE_MIN_MS : Int)
        · have hsave1 := eeprom_save_state_limited
            ⟨true, true, ssum, smtime, some dt⟩ t1 1 f t
            ⟨t0, eepromPack 1 1 1 ssum smtime (seconds_into_week dt)⟩
            hlim.1 hlim.2
          simp [bootReconcile, bootLoadedState, bootEepromEnv, halign, halb, haltr,
            hsave0, hsave1, eepromLoadState_pack_mod, hlim.1, hlim.2]
        · have hsave1 := eeprom_save_state_goes_through
            ⟨true, true, ssum, smtime, some dt⟩ t1 1 f t
            ⟨t0, eepromPack 1 1 1 ssum smtime (seconds_into_week dt)⟩
            rfl rfl (by simpa using hlim)
          simp [bootReconcile, bootLoadedState, bootEepromEnv, halign, halb, haltr,
            hsave0, hsave1, eepromLoadState_pack_mod, hlim, hmodf, hmodt, hmaxf, hmaxt]
      | some s =>
        simp only [bootLoadedState] at halign halb haltr
        have hsave0 := eeprom_save_state_goes_through
          ⟨true, true, ssum, smtime, some dt⟩ t0 1 s.album s.track ⟨0, bytes⟩
          rfl rfl (by simp)
        by_cases hlim : t0 ≠ 0 ∧ ticks_diff t1 t0 < (EEPROM_SAVE_MIN_MS : Int)
        · have hsave1 := eeprom_save_state_limited
            ⟨true, true, ssum, smtime, some dt⟩ t1 1 f t
            ⟨t0, eepromPack 1 s.album s.track ssum smtime (seconds_into_week dt)⟩
            hlim.1 hlim.2
          simp [bootReconcile, bootLoadedState, bootEepromEnv, halign, halb, haltr,
            hsave0, hsave1, eepromLoadState_pack_mod]
        · have hsave1 := eeprom_save_state_goes_through
            ⟨true, true, ssum, smtime, some dt⟩ t1 1 f t
            ⟨t0, eepromPack 1 s.album s.track ssum smtime (seconds_into_week dt)⟩
            rfl rfl (by simpa using hlim)
          simp [bootReconcile, bootLoadedState, bootEepromEnv, halign, halb, haltr,
            hsave0, hsave1, eepromLoadState_pack_mod]

theorem bootReconcile_align_override_witness :
    ((∀ e : SchedEntry, some e ∈ [some (⟨2, 3, 100⟩ : SchedEntry)] →
        1 ≤ e.folder ∧ 1 ≤ e.track ∧ e.track ≤ 255) ∧
      (true : Bool) = true ∧
      (align_to_time (some ⟨2024, 1, 1, 0, 0, 0⟩) [some ⟨2, 3, 100⟩]
        (bootLoadedState ⟨none, true, some ⟨2024, 1, 1, 0, 0, 0⟩, [some ⟨2, 3, 100⟩],
          true, 0, 0, [], false, 0, 500⟩)).1 = true) ∧
      (((bootReconcile ⟨none, true, some ⟨2024, 1, 1, 0, 0, 0⟩, [some ⟨2, 3, 100⟩],
            true, 0, 0, [], false, 0, 500⟩).1.album,
         (bootReconcile ⟨none, true, some ⟨2024, 1, 1, 0, 0, 0⟩, [some ⟨2, 3, 100⟩],
            true, 0, 0, [], false, 0, 500⟩).1.track) =
          (if (none : Option PlayState) = none ∧ (true : Bool) = true ∧
              (false : Bool) = true ∧ (0 : Nat) ≠ 0 ∧
              ticks_diff 500 0 < (EEPROM_SAVE_MIN_MS : Int)
           then (1, 1)
           else ((align_to_time (some ⟨2024, 1, 1, 0, 0, 0⟩) [some ⟨2, 3, 100⟩]
                   (bootLoadedState ⟨none, true, some ⟨2024, 1, 1, 0, 0, 0⟩,
                     [some ⟨2, 3, 100⟩], true, 0, 0, [], false, 0, 500⟩)).2.album,
                 (align_to_time (some ⟨2024, 1, 1, 0, 0, 0⟩) [some ⟨2, 3, 100⟩]
                   (bootLoadedState ⟨none, true, some ⟨2024, 1, 1, 0, 0, 0⟩,
                     [some ⟨2, 3, 100⟩], true, 0, 0, [], false, 0, 500⟩)).2.track)) ∧
        (bootReconcile ⟨none, true, some ⟨2024, 1, 1, 0, 0, 0⟩, [some ⟨2, 3, 100⟩],
            true, 0, 0, [], false, 0, 500⟩).2 =
          (if (false : Bool) = true then 1 else 0)) :=
  ⟨⟨by
      intro e he
      simp only [List.mem_singleton, Option.some.injEq] at he
      subst he
      exact ⟨by decide, by decide, by decide⟩,
    rfl, by decide⟩,
   bootReconcile_align_override
     ⟨none, true, some ⟨2024, 1, 1, 0, 0, 0⟩, [some ⟨2, 3, 100⟩],
       true, 0, 0, [], false, 0, 500⟩
     (by
       intro e he
       simp only [List.mem_singleton, Option.some.injEq] at he
       subst he
       exact ⟨by decide, by decide, by decide⟩)
     rfl (by decide)⟩

/-! ## The sample-interrupt routine (main.py: the `lut` construction and
`isr_cb` inside `play_am_and_fade_df_confirming`)

`lut[i] = max(0, min(65535, MID + (i - 128) * scale))` with
`scale = int(256 * VOLUME) = 256` (VOLUME is 1.0).  `isr_cb` writes `MID`
past the end of the asset, otherwise the table value, linearly attenuated
toward `MID` inside the trailing fade-out window.  Python `//` on a possibly
negative numerator is `Int.fdiv`. -/

/-- `int(256 * VOLUME)` with `VOLUME = 1.0`. -/
def lutVolumeScale : Int := 256

/-- The 256-entry duty lookup table (defined on all of `Nat`; the asset
bytes index it with values 0..255). -/
def lut (i : Nat) : Int :=
  max 0 (min 65535 ((MID : Int) + ((i : Int) - 128) * lutVolumeScale))

/-- The cursor fields of `state` read by `isr_cb`. -/
structure IsrState where
  idx : Nat
  n : Nat
  fade_out_samples : Nat
  deriving DecidableEq, Repr

/-- The PWM duty value `isr_cb` writes for the cursor `st` over the asset
`data` (one invocation; the `done` flag and cursor advance are untouched
here). -/
def isr_duty (data : List Nat) (st : IsrState) : Int :=
  if st.idx ≥ st.n then (MID : Int)
  else
    let raw_duty := lut (data.getD st.idx 0)
    let fo2 := st.fade_out_samples
    if 0 < fo2 ∧ ((st.idx : Int) ≥ (st.n : Int) - (fo2 : Int)) then
      let into : Int := (st.idx : Int) - ((st.n : Int) - (fo2 : Int))
      let remaining0 : Int := (fo2 : Int) - into
      let remaining : Int := if remaining0 < 0 then 0 else remaining0
      let scale_val := (remaining * 256).fdiv (fo2 : Int)
      (MID : Int) + ((raw_duty - MID) * scale_val).fdiv 256
    else raw_duty

theorem lut_bounds (i : Nat) : 0 ≤ lut i ∧ lut i ≤ 65535 := by
  unfold lut lutVolumeScale
  omega

theorem fdiv256_scaled_between (d s : Int) (hs0 : 0 ≤ s) (hs256 : s ≤ 256) :
    min d 0 ≤ (d * s).fdiv 256 ∧ (d * s).fdiv 256 ≤ max d 0 := by
  rw [Int.fdiv_eq_ediv _ (by norm_num)]
  have hcancel : d * 256 / 256 = d := Int.mul_ediv_cancel _ (by norm_num)
  rcases le_or_lt 0 d with hd | hd
  · have h0 : (0 : Int) ≤ d * s / 256 :=
      Int.ediv_nonneg (mul_nonneg hd hs0) (by norm_num)
    have hle : d * s ≤ d * 256 := mul_le_mul_of_nonneg_left hs256 hd
    have h1 := Int.ediv_le_ediv (by norm_num : (0:Int) < 256) hle
    omega
  · have hge : d * 256 ≤ d * s := by nlinarith
    have h1 := Int.ediv_le_ediv (by norm_num : (0:Int) < 256) hge
    have hle : d * s ≤ 0 := mul_nonpos_of_nonpos_of_nonneg (by omega) hs0
    have h2 := Int.ediv_le_ediv (by norm_num : (0:Int) < 256) hle
    have hz : (0 : Int) / 256 = 0 := by norm_num
    omega

/-- C10: every PWM duty the sample interrupt writes lies in 0..65535: the
lookup table is clamped to that range at construction, the end-of-asset
branch writes exactly the midpoint, the fade-out interpolation always lies
between the midpoint and the un-dimmed table value, and hence the duty never
leaves the 16-bit range, for any asset byte. -/
theorem isr_duty_in_range (data : List Nat) (st : IsrState) :
    (∀ i, 0 ≤ lut i ∧ lut i ≤ 65535) ∧
      (st.n ≤ st.idx → isr_duty data st = (MID : Int)) ∧
      (st.idx < st.n →
        min (MID : Int) (lut (data.getD st.idx 0)) ≤ isr_duty data st ∧
          isr_duty data st ≤ max (MID : Int) (lut (data.getD st.idx 0))) ∧
      0 ≤ isr_duty data st ∧ isr_duty data st ≤ 65535 := by
  refine ⟨lut_bounds, ?_, ?_, ?_⟩
  · intro h
    rw [isr_duty, if_pos h]
  · intro h
    have hraw := lut_bounds (data.getD st.idx 0)
    rw [isr_duty, if_neg (by omega)]
    by_cases hfade : 0 < st.fade_out_samples ∧
        ((st.idx : Int) ≥ (st.n : Int) - (st.fade_out_samples : Int))
    · simp only [if_pos hfade]
      set d : Int := lut (data.getD st.idx 0) - MID with hd
      set remaining0 : Int :=
        (st.fade_out_samples : Int) -
          ((st.idx : Int) - ((st.n : Int) - (st.fade_out_samples : Int))) with hr0
      have hrem : ¬ remaining0 < 0 := by omega
      simp only [if_neg hrem]
      have hs0 : (0 : Int) ≤ (remaining0 * 256).fdiv (st.fade_out_samples : Int) := by
        rw [Int.fdiv_eq_ediv _ (by omega)]
        exact Int.ediv_nonneg (by omega) (by omega)
      have hs256 : (remaining0 * 256).fdiv (st.fade_out_samples : Int) ≤ 256 := by
        rw [Int.fdiv_eq_ediv _ (by omega)]
        have hle : remaining0 * 256 ≤ (st.fade_out_samples : Int) * 256 := by
          have : remaining0 ≤ (st.fade_out_samples : Int) := by omega
          nlinarith
        have := Int.ediv_le_ediv (by omega : (0:Int) < (st.fade_out_samples : Int)) hle
        have hcancel : (st.fade_out_samples : Int) * 256 / (st.fade_out_samples : Int) = 256 := by
          rw [mul_comm]
          exact Int.mul_ediv_cancel _ (by omega)
        omega
      have hb := fdiv256_scaled_between d _ hs0 hs256
      unfold MID at *
      omega
    · simp only [if_neg hfade]
      omega
  · have hraw := lut_bounds (data.getD st.idx 0)
    by_cases h : st.n ≤ st.idx
    · rw [isr_duty, if_pos h]; unfold MID; omega
    · have h' : st.idx < st.n := by omega
      -- reuse the between-midpoint-and-table-value bound just established
      rw [isr_duty, if_neg (by omega)]
      by_cases hfade : 0 < st.fade_out_samples ∧
          ((st.idx : Int) ≥ (st.n : Int) - (st.fade_out_samples : Int))
      · simp only [if_pos hfade]
        set d : Int := lut (data.getD st.idx 0) - MID with hd
        set remaining0 : Int :=
          (st.fade_out_samples : Int) -
            ((st.idx : Int) - ((st.n : Int) - (st.fade_out_samples : Int))) with hr0
        have hrem : ¬ remaining0 < 0 := by omega
        simp only [if_neg hrem]
        have hs0 : (0 : Int) ≤ (remaining0 * 256).fdiv (st.fade_out_samples : Int) := by
          rw [Int.fdiv_eq_ediv _ (by omega)]
          exact Int.ediv_nonneg (by omega) (by omega)
        have hs256 : (remaining0 * 256).fdiv (st.fade_out_samples : Int) ≤ 256 := by
          rw [Int.fdiv_eq_ediv _ (by omega)]
          have hle : remaining0 * 256 ≤ (st.fade_out_samples : Int) * 256 := by
            have : remaining0 ≤ (st.fade_out_samples : Int) := by omega
            nlinarith
          have := Int.ediv_le_ediv (by omega : (0:Int) < (st.fade_out_samples : Int)) hle
          have hcancel : (st.fade_out_samples : Int) * 256 / (st.fade_out_samples : Int) = 256 := by
            rw [mul_comm]
            exact Int.mul_ediv_cancel _ (by omega)
          omega
        have hb := fdiv256_scaled_between d _ hs0 hs256
        unfold MID at *
        omega
      · simp only [if_neg hfade]
        omega

/-! ## The primary state file (main.py: `save_state`, `load_state`)

`save_state` writes the single line `f"{album},{track};tracks={track_str}"`
with `track_str = ",".join("%d:%d" % (a, c) for a, c in
sorted(KNOWN_TRACKS.items()))`; `load_state` strips it, splits on `";"`,
unpacks `parts[0]` as `album,track`, and parses the `tracks=` pairs back into
a dict.  Python strings are modeled as lists of character codes; the dict is
modeled as its `sorted(...)` item list (strictly increasing keys). -/

/-- The default whitespace of Python `str.strip()` (ASCII part; the payload
contains none of it). -/
def isSpaceCode (c : Nat) : Bool :=
  c = 32 || c = 9 || c = 10 || c = 11 || c = 12 || c = 13

/-- The decimal digit string of `n` (character codes), as produced by
Python `"%d"` / f-string formatting of a non-negative int. -/
def toDec (n : Nat) : List Nat :=
  if n < 10 then [48 + n] else toDec (n / 10) ++ [48 + n % 10]
termination_by n
decreasing_by exact Nat.div_lt_self (by omega) (by omega)

def isDigitCode (c : Nat) : Bool := 48 ≤ c && c ≤ 57

/-- The value of a digit string. -/
def digitsVal (cs : List Nat) : Nat :=
  cs.foldl (fun a c => a * 10 + (c - 48)) 0

/-- Python `int()` on the strings this program writes: a nonempty
all-digit string parses to its value, anything else raises (`none`). -/
def parseNat (cs : List Nat) : Option Nat :=
  if cs ≠ [] ∧ cs.all isDigitCode then some (digitsVal cs) else none

/-- Python `str.split(sep)` (no maxsplit), keeping empty pieces. -/
def splitOn (s : Nat) : List Nat → List (List Nat)
  | [] => [[]]
  | c :: rest =>
    if c = s then [] :: splitOn s rest
    else
      match splitOn s rest with
      | [] => [[c]]
      | h :: t => (c :: h) :: t

/-- Python `sep.join(pieces)`. -/
def joinSep (s : Nat) : List (List Nat) → List Nat
  | [] => []
  | [x] => x
  | x :: y :: t => x ++ s :: joinSep s (y :: t)

/-- Python `str.strip()`. -/
def strip (l : List Nat) : List Nat :=
  ((l.dropWhile isSpaceCode).reverse.dropWhile isSpaceCode).reverse

/-- One `"%d:%d"` pair. -/
def pairStr (p : Nat × Nat) : List Nat := toDec p.1 ++ 58 :: toDec p.2

/-- The character codes of `"tracks="`. -/
def tracksTag : List Nat := [116, 114, 97, 99, 107, 115, 61]

/-- The line written by `save_state`:
`f"{current_album},{current_track};tracks={track_str}"`. -/
def saveStateStr (album track : Nat) (known : List (Nat × Nat)) : List Nat :=
  (toDec album ++ 44 :: toDec track) ++
    59 :: (tracksTag ++ joinSep 44 (known.map pairStr))

/-- The `for pair in track_part.split(",")` loop of `load_state`: skip empty
pieces, unpack each `a:c` pair (anything else raises → `none`), assign into
the dict. -/
def parsePairsAux (acc : List (Nat × Nat)) : List (List Nat) → Option (List (Nat × Nat))
  | [] => some acc
  | piece :: rest =>
    if piece = [] then parsePairsAux acc rest
    else
      match splitOn 58 piece with
      | [aStr, cStr] =>
        match parseNat aStr, parseNat cStr with
        | some a, some c => parsePairsAux (ktSet acc a c) rest
        | _, _ => none
      | _ => none

/-- `load_state` on the file content: strip, split on `";"`, unpack
`album,track` from `parts[0]` (exactly two comma pieces, both ints, else the
exception path → `none`), then rebuild the known-tracks dict from `parts[1]`
when it starts with `tracks=`.  `none` models the exception handler, which
resets to defaults. -/
def loadStateStr (cs : List Nat) : Option (Nat × Nat × List (Nat × Nat)) :=
  match splitOn 59 (strip cs) with
  | [] => none
  | p0 :: rest =>
    match splitOn 44 p0 with
    | [aStr, tStr] =>
      match parseNat aStr, parseNat tStr with
      | some a, some t =>
        match rest with
        | [] => some (a, t, [])
        | p1 :: _ =>
          if p1.take 7 = tracksTag then
            if p1.drop 7 = [] then some (a, t, [])
            else
              match parsePairsAux [] (splitOn 44 (p1.drop 7)) with
              | some km => some (a, t, km)
              | none => none
          else some (a, t, [])
      | _, _ => none
    | _ => none

theorem toDec_ne_nil (n : Nat) : toDec n ≠ [] := by
  rw [toDec]
  split <;> simp

theorem toDec_digits (n : Nat) : ∀ c ∈ toDec n, 48 ≤ c ∧ c ≤ 57 := by
  induction n using Nat.strong_induction_on with
  | _ n ih =>
    rw [toDec]
    split
    · rename_i h
      intro c hc
      simp only [List.mem_singleton] at hc
      omega
    · rename_i h
      intro c hc
      rw [List.mem_append] at hc
      rcases hc with hc | hc
      · exact ih (n / 10) (Nat.div_lt_self (by omega) (by omega)) c hc
      · simp only [List.mem_singleton] at hc
        have hm : n % 10 < 10 := Nat.mod_lt n (by omega)
        omega

theorem digitsVal_append (xs : List Nat) (c : Nat) :
    digitsVal (xs ++ [c]) = digitsVal xs * 10 + (c - 48) := by
  simp [digitsVal, List.foldl_append]

theorem digitsVal_toDec (n : Nat) : digitsVal (toDec n) = n := by
  induction n using Nat.strong_induction_on with
  | _ n ih =>
    rw [toDec]
    split
    · rename_i h
      simp [digitsVal]
    · rename_i h
      rw [digitsVal_append, ih (n / 10) (Nat.div_lt_self (by omega) (by omega))]
      omega

theorem parseNat_toDec (n : Nat) : parseNat (toDec n) = some n := by
  have hall : (toDec n).all isDigitCode = true := by
    rw [List.all_eq_true]
    intro c hc
    have := toDec_digits n c hc
    simp only [isDigitCode, Bool.and_eq_true, decide_eq_true_eq]
    omega
  rw [parseNat, if_pos ⟨toDec_ne_nil n, hall⟩, digitsVal_toDec]

theorem splitOn_not_mem (s : Nat) (l : List Nat) (h : s ∉ l) : splitOn s l = [l] := by
  induction l with
  | nil => rfl
  | cons c rest ih =>
    have hc : ¬ c = s := fun e => h (by simp [e])
    have hr : s ∉ rest := fun e => h (by simp [e])
    rw [splitOn, if_neg hc, ih hr]

theorem splitOn_append (s : Nat) (xs ys : List Nat) (h : s ∉ xs) :
    splitOn s (xs ++ s :: ys) = xs :: splitOn s ys := by
  induction xs with
  | nil => simp [splitOn]
  | cons c rest ih =>
    have hc : ¬ c = s := fun e => h (by simp [e])
    have hr : s ∉ rest := fun e => h (by simp [e])
    rw [List.cons_append, splitOn, if_neg hc, ih hr]

theorem splitOn_joinSep (s : Nat) (ps : List (List Nat)) (hne : ps ≠ [])
    (h : ∀ p ∈ ps, s ∉ p) : splitOn s (joinSep s ps) = ps := by
  induction ps with
  | nil => exact absurd rfl hne
  | cons x rest ih =>
    cases rest with
    | nil => exact splitOn_not_mem s x (h x (by simp))
    | cons y t =>
      rw [joinSep, splitOn_append s x _ (h x (by simp)),
        ih (by simp) (fun p hp => h p (by simp [hp]))]

theorem dropWhile_all_false (p : Nat → Bool) (l : List Nat)
    (h : ∀ c ∈ l, p c = false) : l.dropWhile p = l := by
  cases l with
  | nil => rfl
  | cons c rest =>
    rw [List.dropWhile_cons, h c (by simp)]
    simp

theorem strip_eq_self (l : List Nat) (h : ∀ c ∈ l, isSpaceCode c = false) :
    strip l = l := by
  unfold strip
  rw [dropWhile_all_false _ _ h,
    dropWhile_all_false _ _ (fun c hc => h c (by simpa using hc)),
    List.reverse_reverse]

theorem mem_joinSep (s : Nat) (ps : List (List Nat)) (c : Nat)
    (hc : c ∈ joinSep s ps) : c = s ∨ ∃ p ∈ ps, c ∈ p := by
  induction ps with
  | nil => simp [joinSep] at hc
  | cons x rest ih =>
    cases rest with
    | nil =>
      simp only [joinSep] at hc
      exact Or.inr ⟨x, by simp, hc⟩
    | cons y t =>
      rw [joinSep, List.mem_append, List.mem_cons] at hc
      rcases hc with hx | hs | hrest
      · exact Or.inr ⟨x, by simp, hx⟩
      · exact Or.inl hs
      · rcases ih hrest with h1 | ⟨p, hp, hcp⟩
        · exact Or.inl h1
        · exact Or.inr ⟨p, by simp [hp], hcp⟩

theorem mem_pairStr (p : Nat × Nat) (c : Nat) (hc : c ∈ pairStr p) :
    c = 58 ∨ (48 ≤ c ∧ c ≤ 57) := by
  rw [pairStr, List.mem_append, List.mem_cons] at hc
  rcases hc with h1 | h2 | h3
  · exact Or.inr (toDec_digits _ c h1)
  · exact Or.inl h2
  · exact Or.inr (toDec_digits _ c h3)

theorem mem_saveStateStr (album track : Nat) (known : List (Nat × Nat)) (c : Nat)
    (hc : c ∈ saveStateStr album track known) : 44 ≤ c ∧ c ≤ 116 := by
  rw [saveStateStr, List.mem_append, List.mem_cons] at hc
  rcases hc with hc | hc | hc
  · rw [List.mem_append, List.mem_cons] at hc
    rcases hc with h1 | h2 | h3
    · have := toDec_digits album c h1; omega
    · omega
    · have := toDec_digits track c h3; omega
  · omega
  · rw [List.mem_append] at hc
    rcases hc with h1 | h2
    · rw [tracksTag] at h1
      simp only [List.mem_cons, List.mem_singleton, List.not_mem_nil, or_false] at h1
      rcases h1 with h | h | h | h | h | h | h <;> omega
    · rcases mem_joinSep _ _ _ h2 with h | ⟨p, hp, hcp⟩
      · omega
      · rcases List.mem_map.mp hp with ⟨q, hq, rfl⟩
        rcases mem_pairStr q c hcp with h | h <;> omega

theorem pairStr_ne_nil (p : Nat × Nat) : pairStr p ≠ [] := by
  rw [pairStr]
  simp

theorem joinSep_pairStr_ne_nil (m : List (Nat × Nat)) (h : m ≠ []) :
    joinSep 44 (m.map pairStr) ≠ [] := by
  cases m with
  | nil => exact absurd rfl h
  | cons pq m' =>
    cases m' with
    | nil => simpa [joinSep] using pairStr_ne_nil pq
    | cons q t => simp [joinSep]

theorem splitOn_pairStr (a c : Nat) :
    splitOn 58 (pairStr (a, c)) = [toDec a, toDec c] := by
  rw [pairStr, splitOn_append 58 _ _
      (fun hm => by have := toDec_digits a 58 hm; omega),
    splitOn_not_mem 58 _ (fun hm => by have := toDec_digits c 58 hm; omega)]

theorem parsePairsAux_map (m : List (Nat × Nat)) : ∀ acc : List (Nat × Nat),
    (∀ p ∈ m, ∀ q ∈ acc, q.1 ≠ p.1) →
    List.Pairwise (fun p q => p.1 < q.1) m →
    parsePairsAux acc (m.map pairStr) = some (acc ++ m) := by
  induction m with
  | nil =>
    intro acc _ _
    simp [parsePairsAux]
  | cons pq m' ih =>
    intro acc hdisj hpw
    obtain ⟨a, c⟩ := pq
    have hpw' := List.pairwise_cons.mp hpw
    simp only [List.map_cons, parsePairsAux, if_neg (pairStr_ne_nil (a, c)),
      splitOn_pairStr, parseNat_toDec]
    have hka : ∀ q ∈ acc, q.1 ≠ a := fun q hq => hdisj (a, c) (by simp) q hq
    rw [ktSet_append_of_not_mem acc a c hka]
    have hdisj' : ∀ p ∈ m', ∀ q ∈ acc ++ [(a, c)], q.1 ≠ p.1 := by
      intro p hp q hq
      rcases List.mem_append.mp hq with h1 | h2
      · exact hdisj p (by simp [hp]) q h1
      · have hq' : q = (a, c) := by simpa using h2
        subst hq'
        exact Nat.ne_of_lt (hpw'.1 p hp)
    rw [ih (acc ++ [(a, c)]) hdisj' hpw'.2]
    simp

/-- C9: primary-store round-trip: for every album, track and known-tracks
map (as its sorted dict item list), `save_state`'s payload parsed back by
`load_state` restores exactly the same album, track and map. -/
theorem save_state_load_state_roundtrip (album track : Nat)
    (known : List (Nat × Nat))
    (hsorted : List.Pairwise (fun p q => p.1 < q.1) known) :
    loadStateStr (saveStateStr album track known) = some (album, track, known) := by
  have hns : ∀ c ∈ saveStateStr album track known, isSpaceCode c = false := by
    intro c hc
    have := mem_saveStateStr album track known c hc
    simp only [isSpaceCode, Bool.or_eq_false_iff, decide_eq_false_iff_not]
    omega
  have h59xs : (59 : Nat) ∉ toDec album ++ 44 :: toDec track := by
    intro hm
    rw [List.mem_append, List.mem_cons] at hm
    rcases hm with h | h | h
    · have := toDec_digits album 59 h; omega
    · omega
    · have := toDec_digits track 59 h; omega
  have h59ys : (59 : Nat) ∉ tracksTag ++ joinSep 44 (known.map pairStr) := by
    intro hm
    rw [List.mem_append] at hm
    rcases hm with h | h
    · rw [tracksTag] at h
      simp only [List.mem_cons, List.not_mem_nil, or_false] at h
      rcases h with h | h | h | h | h | h | h <;> omega
    · rcases mem_joinSep _ _ _ h with h1 | ⟨p, hp, hcp⟩
      · omega
      · rcases List.mem_map.mp hp with ⟨q, _, rfl⟩
        rcases mem_pairStr q 59 hcp with h2 | h2 <;> omega
  have hsplit59 : splitOn 59 (saveStateStr album track known) =
      (toDec album ++ 44 :: toDec track) ::
        [tracksTag ++ joinSep 44 (known.map pairStr)] := by
    rw [saveStateStr, splitOn_append _ _ _ h59xs, splitOn_not_mem _ _ h59ys]
  have hsplit44 : splitOn 44 (toDec album ++ 44 :: toDec track) =
      [toDec album, toDec track] := by
    rw [splitOn_append _ _ _ (fun h => by have := toDec_digits album 44 h; omega),
      splitOn_not_mem _ _ (fun h => by have := toDec_digits track 44 h; omega)]
  have htake : (tracksTag ++ joinSep 44 (known.map pairStr)).take 7 = tracksTag := by
    rw [show (7 : Nat) = tracksTag.length from rfl, List.take_left]
  have hdrop : (tracksTag ++ joinSep 44 (known.map pairStr)).drop 7 =
      joinSep 44 (known.map pairStr) := by
    rw [show (7 : Nat) = tracksTag.length from rfl, List.drop_left]
  simp only [loadStateStr, strip_eq_self _ hns, hsplit59, hsplit44, parseNat_toDec,
    htake, hdrop, if_pos rfl]
  cases known with
  | nil => simp [joinSep]
  | cons p m' =>
    rw [if_neg (joinSep_pairStr_ne_nil (p :: m') (by simp)),
      splitOn_joinSep 44 _ (by simp) (by
        intro piece hpiece h44
        rcases List.mem_map.mp hpiece with ⟨q, _, rfl⟩
        rcases mem_pairStr q 44 h44 with h2 | h2 <;> omega),
      parsePairsAux_map (p :: m') [] (by simp) hsorted]
    simp

theorem save_state_load_state_roundtrip_witness :
    List.Pairwise (fun p q : Nat × Nat => p.1 < q.1) [(5, 12)] ∧
      loadStateStr (saveStateStr 5 12 [(5, 12)]) = some (5, 12, [(5, 12)]) :=
  ⟨by decide, save_state_load_state_roundtrip 5 12 [(5, 12)] (by decide)⟩

end OTR
